import Mathlib

/-
Verification of the courier RPC call layer against its specification.

The development shallowly embeds the code of `courier/handlers/py_call.cc`
and `courier/python/router.cc`: the Python-exception-to-status mapper, the
`PyCallHandler` call path (modelled as a pure function from an environment
of runtime-primitive outcomes to an event trace and an outcome), the
handler's reference-count lifecycle, and the pybind11 module registration.
The Router registry itself is not among the provided sources, so it is
modelled from the specification's contract.
-/

namespace Courier

/-! ## Status codes and statuses (absl::StatusCode / absl::Status) -/

inductive StatusCode where
  | ok
  | invalidArgument
  | outOfRange
  | resourceExhausted
  | unimplemented
  | aborted
  | internal
  | notFound
  | unknown
  | alreadyExists
  deriving DecidableEq

structure Status where
  code : StatusCode
  message : String
  deriving DecidableEq

/-! ## Error mapper: `PythonExceptionErrorCode` in py_call.cc

The pending-failure state records whether an exception is pending
(`PyErr_Occurred`) and which exception classes the pending exception
matches (`PyErr_ExceptionMatches` per class). -/

structure PyErrState where
  occurred : Bool
  matchesValueError : Bool
  matchesTypeError : Bool
  matchesStopIteration : Bool
  matchesMemoryError : Bool
  matchesNotImplementedError : Bool
  matchesKeyboardInterrupt : Bool
  matchesSystemError : Bool
  matchesSyntaxError : Bool
  matchesLookupError : Bool
  deriving DecidableEq

/-- Direct transcription of `PythonExceptionErrorCode` from
`courier/handlers/py_call.cc`. -/
def PythonExceptionErrorCode (s : PyErrState) : StatusCode :=
  if !s.occurred then StatusCode.unknown
  else if s.matchesValueError || s.matchesTypeError then StatusCode.invalidArgument
  else if s.matchesStopIteration then StatusCode.outOfRange
  else if s.matchesMemoryError then StatusCode.resourceExhausted
  else if s.matchesNotImplementedError then StatusCode.unimplemented
  else if s.matchesKeyboardInterrupt then StatusCode.aborted
  else if s.matchesSystemError || s.matchesSyntaxError then StatusCode.internal
  else if s.matchesLookupError then StatusCode.notFound
  else StatusCode.unknown

/-- The specification's formulation of the error mapper: an ordered table of
(category predicate, status code) pairs, evaluated top to bottom. -/
def errorCategoryTable : List ((PyErrState → Bool) × StatusCode) :=
  [ (fun s => !s.occurred, StatusCode.unknown),
    (fun s => s.matchesValueError || s.matchesTypeError, StatusCode.invalidArgument),
    (fun s => s.matchesStopIteration, StatusCode.outOfRange),
    (fun s => s.matchesMemoryError, StatusCode.resourceExhausted),
    (fun s => s.matchesNotImplementedError, StatusCode.unimplemented),
    (fun s => s.matchesKeyboardInterrupt, StatusCode.aborted),
    (fun s => s.matchesSystemError || s.matchesSyntaxError, StatusCode.internal),
    (fun s => s.matchesLookupError, StatusCode.notFound) ]

/-- First-match-wins evaluation of an ordered category table, with the total
default case `Unknown` when no category matches. -/
def firstMatchCode : List ((PyErrState → Bool) × StatusCode) → PyErrState → StatusCode
  | [], _ => StatusCode.unknown
  | (p, c) :: rest, s => if p s then c else firstMatchCode rest s

/-! ## Wire data model (serialization.proto as described by the spec)

The generated proto code is not among the provided sources; the shapes
below follow the spec's data model. `kwargs` is kept in receipt order as
an ordered association list with unique keys. -/

inductive Payload where
  | tensor (refIndex : Option Nat) (bytes : List Nat)
  | object (bytes : List Nat)
  deriving DecidableEq

structure CallArguments where
  args : List Payload
  kwargs : List (String × Payload)
  deriving DecidableEq

structure CallResult where
  result : Payload
  deriving DecidableEq

/-- A native value held by the hosted runtime (an opaque `PyObject*`). -/
structure PyObj where
  id : Nat
  deriving DecidableEq

/-- Per-call table from tensor reference index to the decoded tensor. -/
structure TensorLookup where
  table : List (Nat × List Nat)
  deriving DecidableEq

/-! ## `PyCallHandler::Call` (courier/handlers/py_call.cc)

The call path is embedded as a pure function of an environment recording
the outcomes of the runtime primitives the handler invokes:
`CreateTensorLookup`, `DeserializePyObject` per positional index and per
keyword name, `PyObject_Call`, the pending-exception state, and
`PythonUtils::FetchPendingException` / `SerializePyObject`.  The function
returns the sequence of observable events together with the
`StatusOr<CallResult>` outcome. -/

structure CallEnv where
  tensorLookup : Except Status TensorLookup
  deserializeArg : Nat → Except Status PyObj
  deserializeKwarg : String → Except Status PyObj
  invoke : List PyObj → List (String × PyObj) → Option PyObj
  errState : PyErrState
  fetchPendingException : Option String
  serialize : PyObj → Except Status Payload

inductive CallEvent where
  | buildTensorLookup
  | gilAcquire
  | decodeArg (i : Nat)
  | decodeKwarg (k : String)
  | invoke
  | serializeResult
  | fetchException
  | gilRelease
  deriving DecidableEq

/-- Events of the positional-argument decode loop: one decode per index in
sequence order, stopping at (and including) the first failing decode. -/
def decodeArgsTrace (env : CallEnv) : List Nat → List CallEvent
  | [] => []
  | i :: rest =>
    match env.deserializeArg i with
    | Except.error _ => [CallEvent.decodeArg i]
    | Except.ok _ => CallEvent.decodeArg i :: decodeArgsTrace env rest

/-- Outcome of the positional-argument decode loop: the decoded values in
order, or the first failure's status (`COURIER_ASSIGN_OR_RETURN`). -/
def decodeArgsResult (env : CallEnv) : List Nat → Except Status (List PyObj)
  | [] => Except.ok []
  | i :: rest =>
    match env.deserializeArg i with
    | Except.error s => Except.error s
    | Except.ok v =>
      match decodeArgsResult env rest with
      | Except.error s => Except.error s
      | Except.ok vs => Except.ok (v :: vs)

/-- Events of the keyword-argument decode loop, keys in receipt order. -/
def decodeKwargsTrace (env : CallEnv) : List String → List CallEvent
  | [] => []
  | k :: rest =>
    match env.deserializeKwarg k with
    | Except.error _ => [CallEvent.decodeKwarg k]
    | Except.ok _ => CallEvent.decodeKwarg k :: decodeKwargsTrace env rest

/-- Outcome of the keyword-argument decode loop: name/value pairs in receipt
order, or the first failure's status. -/
def decodeKwargsResult (env : CallEnv) : List String →
    Except Status (List (String × PyObj))
  | [] => Except.ok []
  | k :: rest =>
    match env.deserializeKwarg k with
    | Except.error s => Except.error s
    | Except.ok v =>
      match decodeKwargsResult env rest with
      | Except.error s => Except.error s
      | Except.ok vs => Except.ok ((k, v) :: vs)

/-- The literal `error_prefix` string of `PyCallHandler::Call`. -/
def serverExceptionNote : String := "Python exception was raised on the server"

/-- Message built when the exception text was fetched:
`absl::StrCat(error_prefix, ":\n", exception)`. -/
def raisedMessage (exception : String) : String :=
  (serverExceptionNote ++ ":\n") ++ exception

/-- Fallback message when the runtime reports a failure but its text cannot
be retrieved (transcribed verbatim, trailing spaces included). -/
def fallbackInternalMessage : String :=
  serverExceptionNote ++ " but the exception message could not be caught.   "

/-- Events of the part of `Call` that runs inside the GIL-exclusive section:
decode the positional arguments in sequence order, then the keyword
arguments in receipt order, invoke the callable, and handle the result
(encode) or the pending failure (fetch). -/
def callBodyTrace (env : CallEnv) (a : CallArguments) : List CallEvent :=
  match decodeArgsResult env (List.range a.args.length) with
  | Except.error _ => decodeArgsTrace env (List.range a.args.length)
  | Except.ok vsA =>
    match decodeKwargsResult env (a.kwargs.map Prod.fst) with
    | Except.error _ =>
      decodeArgsTrace env (List.range a.args.length) ++
        decodeKwargsTrace env (a.kwargs.map Prod.fst)
    | Except.ok vsK =>
      match env.invoke vsA vsK with
      | some _ =>
        decodeArgsTrace env (List.range a.args.length) ++
          decodeKwargsTrace env (a.kwargs.map Prod.fst) ++
          [CallEvent.invoke, CallEvent.serializeResult]
      | none =>
        decodeArgsTrace env (List.range a.args.length) ++
          decodeKwargsTrace env (a.kwargs.map Prod.fst) ++
          [CallEvent.invoke, CallEvent.fetchException]

/-- Outcome of the part of `Call` that runs inside the GIL-exclusive
section: a failing decode returns its status; a successful invocation
serializes the result into a `CallResult`; a failed invocation maps the
pending failure through the error mapper, with the `Internal` fallback when
the failure text cannot be retrieved. -/
def callBodyResult (env : CallEnv) (a : CallArguments) :
    Except Status CallResult :=
  match decodeArgsResult env (List.range a.args.length) with
  | Except.error s => Except.error s
  | Except.ok vsA =>
    match decodeKwargsResult env (a.kwargs.map Prod.fst) with
    | Except.error s => Except.error s
    | Except.ok vsK =>
      match env.invoke vsA vsK with
      | some res =>
        match env.serialize res with
        | Except.ok p => Except.ok { result := p }
        | Except.error s => Except.error s
      | none =>
        match env.fetchPendingException with
        | some exc =>
          Except.error
            { code := PythonExceptionErrorCode env.errState
              message := raisedMessage exc }
        | none =>
          Except.error
            { code := StatusCode.internal, message := fallbackInternalMessage }

/-- Event trace of `PyCallHandler::Call`: the tensor lookup is built before
the GIL is acquired; on lookup failure the function returns before any
acquisition; otherwise `pybind11::gil_scoped_acquire` brackets the whole
body, releasing on every exit path. -/
def callTrace (env : CallEnv) (a : CallArguments) : List CallEvent :=
  match env.tensorLookup with
  | Except.error _ => [CallEvent.buildTensorLookup]
  | Except.ok _ =>
    CallEvent.buildTensorLookup :: CallEvent.gilAcquire ::
      (callBodyTrace env a ++ [CallEvent.gilRelease])

/-- Outcome of `PyCallHandler::Call` (`absl::StatusOr<CallResult>`). -/
def callOutcome (env : CallEnv) (a : CallArguments) : Except Status CallResult :=
  match env.tensorLookup with
  | Except.error s => Except.error s
  | Except.ok _ => callBodyResult env a

/-- `PyCallHandler::Call` as a whole: its observable events and outcome. -/
def pyCallHandlerCall (env : CallEnv) (a : CallArguments) :
    List CallEvent × Except Status CallResult :=
  (callTrace env a, callOutcome env a)

/-- Events that touch hosted-runtime state and so must sit inside the
exclusive section: argument decode, invocation, and result/error handling. -/
def runtimeWork : CallEvent → Bool
  | CallEvent.buildTensorLookup => false
  | CallEvent.gilAcquire => false
  | CallEvent.gilRelease => false
  | _ => true

/-- The decode order the spec prescribes: every positional argument in
sequence order, then every keyword argument in receipt order. -/
def canonicalDecodeOrder (a : CallArguments) : List CallEvent :=
  (List.range a.args.length).map CallEvent.decodeArg ++
    (a.kwargs.map Prod.fst).map CallEvent.decodeKwarg

def isDecodeEvent : CallEvent → Bool
  | CallEvent.decodeArg _ => true
  | CallEvent.decodeKwarg _ => true
  | _ => false

def decodeEventsOf (t : List CallEvent) : List CallEvent :=
  t.filter isDecodeEvent

/-! ## Handler lifecycle: constructor / destructor of `PyCallHandler`

The constructor body is `Py_INCREF(py_func_)` with no GIL acquisition of
its own; the destructor is `pybind11::gil_scoped_acquire gil; Py_DECREF(py_func_)`. -/

inductive LifeEvent where
  | gilAcquire
  | incref
  | decref
  | gilRelease
  deriving DecidableEq

def pyCallHandlerConstructor : List LifeEvent := [LifeEvent.incref]

def pyCallHandlerDestructor : List LifeEvent :=
  [LifeEvent.gilAcquire, LifeEvent.decref, LifeEvent.gilRelease]

/-- GIL state after an event, given the state before it. -/
def gilAfter (g : Bool) : LifeEvent → Bool
  | LifeEvent.gilAcquire => true
  | LifeEvent.gilRelease => false
  | _ => g

/-- Whether every occurrence of event `e` in the trace executes while the
GIL is held, starting from initial GIL state `g` of the executing thread. -/
def allUnderGil (e : LifeEvent) : Bool → List LifeEvent → Bool
  | _, [] => true
  | g, ev :: rest => (if ev = e then g else true) && allUnderGil e (gilAfter g ev) rest

/-! ## Router registry -/

def lookupName {H : Type} : List (String × H) → String → Option H
  | [], _ => none
  | (k, v) :: rest, n => if k = n then some v else lookupName rest n

/-- Modelled from the spec: the Router registry implementation
(`courier/router.h` / `courier/router.cc`) is not among the provided
sources; only its spec contract and its pybind11 binding are. The registry
is the name-to-handler map, handlers of an arbitrary type `H`. -/
structure Router (H : Type) where
  registry : List (String × H)

/-- Modelled from the spec: `Bind(name, handler) -> Status` fails with
`AlreadyExists` if `name` is already registered, leaving the registry
unchanged; on success the registry gains ownership of `handler` and `Ok`
is returned. -/
def Router.bind {H : Type} (r : Router H) (n : String) (h : H) :
    Status × Router H :=
  if (lookupName r.registry n).isSome then
    ({ code := StatusCode.alreadyExists, message := "" }, r)
  else
    ({ code := StatusCode.ok, message := "" }, { registry := r.registry ++ [(n, h)] })

/-- Modelled from the spec: `Unbind(name) -> Status` fails with `NotFound`
if `name` is not registered; on success the handler is removed and `Ok`
returned. -/
def Router.unbind {H : Type} (r : Router H) (n : String) : Status × Router H :=
  if (lookupName r.registry n).isSome then
    ({ code := StatusCode.ok, message := "" },
     { registry := r.registry.filter (fun p => !(p.1 == n)) })
  else
    ({ code := StatusCode.notFound, message := "" }, r)

/-- Modelled from the spec: `Dispatch(name, args)` fails with `NotFound` if
`name` is unregistered, invoking no handler and leaving the registry
untouched; otherwise it forwards to the bound handler's `Call` and returns
its outcome unchanged. The third component records which handlers were
invoked. -/
def Router.dispatch {H : Type} (r : Router H)
    (call : H → CallArguments → Except Status CallResult)
    (n : String) (a : CallArguments) :
    Except Status CallResult × Router H × List String :=
  match lookupName r.registry n with
  | none => (Except.error { code := StatusCode.notFound, message := "" }, r, [])
  | some h => (call h a, r, [n])

/-! ## Module registration (courier/python/router.cc)

The `PYBIND11_MODULE(router, m)` block registers class `Router` with
`py::init<>()`, `Bind`, and `Unbind` — the latter with
`py::call_guard<py::gil_scoped_release>()`. -/

structure PyModuleMethod where
  name : String
  gilScopedReleaseGuard : Bool
  deriving DecidableEq

def routerModuleMethods : List PyModuleMethod :=
  [ { name := "__init__", gilScopedReleaseGuard := false },
    { name := "Bind", gilScopedReleaseGuard := false },
    { name := "Unbind", gilScopedReleaseGuard := true } ]

def routerModuleExposes (n : String) : Bool :=
  routerModuleMethods.any fun m => m.name == n

def methodGilReleaseGuard (n : String) : Option Bool :=
  (routerModuleMethods.find? fun m => m.name == n).map
    PyModuleMethod.gilScopedReleaseGuard

/-- Whether the GIL is held while the bound native function body runs, for a
caller that enters the foreign-function surface holding the GIL: a
`gil_scoped_release` call guard releases it for the duration of the call. -/
def gilHeldDuringMethodBody (n : String) : Option Bool :=
  (methodGilReleaseGuard n).map fun g => !g

/-! ## Concrete sample inputs used by the witness theorems -/

def errLookupFailure : PyErrState :=
  { occurred := true
    matchesValueError := false
    matchesTypeError := false
    matchesStopIteration := false
    matchesMemoryError := false
    matchesNotImplementedError := false
    matchesKeyboardInterrupt := false
    matchesSystemError := false
    matchesSyntaxError := false
    matchesLookupError := true }

def argsSample : CallArguments :=
  { args := [Payload.object [0]], kwargs := [("k", Payload.object [1])] }

/-- A run whose callable fails with a pending lookup failure whose text
cannot be retrieved. -/
def envFallback : CallEnv :=
  { tensorLookup := Except.ok { table := [] }
    deserializeArg := fun _ => Except.ok { id := 0 }
    deserializeKwarg := fun _ => Except.ok { id := 1 }
    invoke := fun _ _ => none
    errState := errLookupFailure
    fetchPendingException := none
    serialize := fun _ => Except.ok (Payload.object []) }

/-- A run whose callable fails with a pending lookup failure with message
"key missing". -/
def envRaised : CallEnv :=
  { tensorLookup := Except.ok { table := [] }
    deserializeArg := fun _ => Except.ok { id := 0 }
    deserializeKwarg := fun _ => Except.ok { id := 1 }
    invoke := fun _ _ => none
    errState := errLookupFailure
    fetchPendingException := some "key missing"
    serialize := fun _ => Except.ok (Payload.object []) }

end Courier

namespace Courier

/-- C1: the error mapper is a total function of the pending-failure state that
agrees, on every state, with first-match-wins evaluation of the fixed ordered
category table (no-failure ↦ Unknown, value/type ↦ InvalidArgument,
iteration-exhausted ↦ OutOfRange, memory ↦ ResourceExhausted,
not-implemented ↦ Unimplemented, interrupt ↦ Aborted, internal/syntax ↦
Internal, lookup ↦ NotFound, default Unknown). -/
theorem errorMapper_first_match_total (s : PyErrState) :
    PythonExceptionErrorCode s = firstMatchCode errorCategoryTable s := by
  rfl

theorem decodeArgsTrace_shape (env : CallEnv) (l : List Nat) :
    ∀ e ∈ decodeArgsTrace env l, ∃ i, e = CallEvent.decodeArg i := by
  induction l with
  | nil => intro e he; simp [decodeArgsTrace] at he
  | cons i rest ih =>
    intro e he
    unfold decodeArgsTrace at he
    cases h : env.deserializeArg i with
    | error s =>
      rw [h] at he
      simp only [List.mem_singleton] at he
      exact ⟨i, he⟩
    | ok v =>
      rw [h] at he
      simp only [List.mem_cons] at he
      rcases he with rfl | he
      · exact ⟨i, rfl⟩
      · exact ih e he

theorem decodeKwargsTrace_shape (env : CallEnv) (ks : List String) :
    ∀ e ∈ decodeKwargsTrace env ks, ∃ k, e = CallEvent.decodeKwarg k := by
  induction ks with
  | nil => intro e he; simp [decodeKwargsTrace] at he
  | cons k rest ih =>
    intro e he
    unfold decodeKwargsTrace at he
    cases h : env.deserializeKwarg k with
    | error s =>
      rw [h] at he
      simp only [List.mem_singleton] at he
      exact ⟨k, he⟩
    | ok v =>
      rw [h] at he
      simp only [List.mem_cons] at he
      rcases he with rfl | he
      · exact ⟨k, rfl⟩
      · exact ih e he

theorem callBodyTrace_work (env : CallEnv) (a : CallArguments) :
    ∀ e ∈ callBodyTrace env a, runtimeWork e = true := by
  intro e he
  unfold callBodyTrace at he
  have args_work : ∀ e ∈ decodeArgsTrace env (List.range a.args.length),
      runtimeWork e = true := by
    intro e he
    obtain ⟨i, rfl⟩ := decodeArgsTrace_shape env _ e he
    rfl
  have kwargs_work : ∀ e ∈ decodeKwargsTrace env (a.kwargs.map Prod.fst),
      runtimeWork e = true := by
    intro e he
    obtain ⟨k, rfl⟩ := decodeKwargsTrace_shape env _ e he
    rfl
  split at he
  · exact args_work e he
  · split at he
    · rcases List.mem_append.mp he with h | h
      · exact args_work e h
      · exact kwargs_work e h
    · split at he
      · rcases List.mem_append.mp he with h | h
        · rcases List.mem_append.mp h with h2 | h2
          · exact args_work e h2
          · exact kwargs_work e h2
        · simp only [List.mem_cons, List.not_mem_nil, or_false] at h
          rcases h with rfl | rfl <;> rfl
      · rcases List.mem_append.mp he with h | h
        · rcases List.mem_append.mp h with h2 | h2
          · exact args_work e h2
          · exact kwargs_work e h2
        · simp only [List.mem_cons, List.not_mem_nil, or_false] at h
          rcases h with rfl | rfl <;> rfl

/-- C2: in `Call`, the tensor lookup is built first and before exclusive
runtime access is acquired; then either the lookup fails and `Call` returns
that status without ever having acquired exclusive access, or exclusive
access is acquired exactly once, every event of the exclusive section is
argument decode, invocation or result/error handling, and the release is
the final event — so exclusive access is released on every exit path before
the result or status is returned. -/
theorem pyCall_exclusive_section (env : CallEnv) (a : CallArguments) :
    (callTrace env a).head? = some CallEvent.buildTensorLookup ∧
    ((∃ s, env.tensorLookup = Except.error s ∧
        callTrace env a = [CallEvent.buildTensorLookup] ∧
        callOutcome env a = Except.error s) ∨
      (∃ body, callTrace env a = CallEvent.buildTensorLookup ::
          CallEvent.gilAcquire :: (body ++ [CallEvent.gilRelease]) ∧
        ∀ e ∈ body, runtimeWork e = true)) := by
  cases h : env.tensorLookup with
  | error s =>
    refine ⟨?_, Or.inl ⟨s, rfl, ?_, ?_⟩⟩ <;>
      simp [callTrace, callOutcome, h]
  | ok lk =>
    refine ⟨?_, Or.inr ⟨callBodyTrace env a, ?_, callBodyTrace_work env a⟩⟩ <;>
      simp [callTrace, h]

theorem decodeArgsTrace_of_ok (env : CallEnv) :
    ∀ (l : List Nat) (vs : List PyObj), decodeArgsResult env l = Except.ok vs →
      decodeArgsTrace env l = l.map CallEvent.decodeArg := by
  intro l
  induction l with
  | nil => intro vs _; rfl
  | cons i rest ih =>
    intro vs h
    unfold decodeArgsResult at h
    cases hd : env.deserializeArg i with
    | error s => simp only [hd] at h; exact Except.noConfusion h
    | ok v =>
      simp only [hd] at h
      cases hr : decodeArgsResult env rest with
      | error s => simp only [hr] at h; exact Except.noConfusion h
      | ok vs2 =>
        unfold decodeArgsTrace
        simp only [hd, List.map_cons]
        rw [ih vs2 hr]

theorem decodeKwargsTrace_of_ok (env : CallEnv) :
    ∀ (ks : List String) (vs : List (String × PyObj)),
      decodeKwargsResult env ks = Except.ok vs →
      decodeKwargsTrace env ks = ks.map CallEvent.decodeKwarg := by
  intro ks
  induction ks with
  | nil => intro vs _; rfl
  | cons k rest ih =>
    intro vs h
    unfold decodeKwargsResult at h
    cases hd : env.deserializeKwarg k with
    | error s => simp only [hd] at h; exact Except.noConfusion h
    | ok v =>
      simp only [hd] at h
      cases hr : decodeKwargsResult env rest with
      | error s => simp only [hr] at h; exact Except.noConfusion h
      | ok vs2 =>
        unfold decodeKwargsTrace
        simp only [hd, List.map_cons]
        rw [ih vs2 hr]

theorem decodeArgsTrace_take (env : CallEnv) :
    ∀ l : List Nat, ∃ k, k ≤ l.length ∧
      decodeArgsTrace env l = (l.map CallEvent.decodeArg).take k := by
  intro l
  induction l with
  | nil => exact ⟨0, Nat.le_refl 0, rfl⟩
  | cons i rest ih =>
    cases hd : env.deserializeArg i with
    | error s =>
      refine ⟨1, by simp, ?_⟩
      unfold decodeArgsTrace
      simp [hd]
    | ok v =>
      obtain ⟨k, hk, htr⟩ := ih
      refine ⟨k + 1, Nat.succ_le_succ hk, ?_⟩
      unfold decodeArgsTrace
      simp only [hd, List.map_cons, List.take_succ_cons]
      rw [htr]

theorem decodeKwargsTrace_take (env : CallEnv) :
    ∀ ks : List String, ∃ k, k ≤ ks.length ∧
      decodeKwargsTrace env ks = (ks.map CallEvent.decodeKwarg).take k := by
  intro ks
  induction ks with
  | nil => exact ⟨0, Nat.le_refl 0, rfl⟩
  | cons kw rest ih =>
    cases hd : env.deserializeKwarg kw with
    | error s =>
      refine ⟨1, by simp, ?_⟩
      unfold decodeKwargsTrace
      simp [hd]
    | ok v =>
      obtain ⟨k, hk, htr⟩ := ih
      refine ⟨k + 1, Nat.succ_le_succ hk, ?_⟩
      unfold decodeKwargsTrace
      simp only [hd, List.map_cons, List.take_succ_cons]
      rw [htr]

theorem filter_decodeArgs_map (l : List Nat) :
    (l.map CallEvent.decodeArg).filter isDecodeEvent = l.map CallEvent.decodeArg := by
  refine List.filter_eq_self.mpr ?_
  intro e he
  obtain ⟨i, _, rfl⟩ := List.mem_map.mp he
  rfl

theorem filter_decodeKwargs_map (ks : List String) :
    (ks.map CallEvent.decodeKwarg).filter isDecodeEvent = ks.map CallEvent.decodeKwarg := by
  refine List.filter_eq_self.mpr ?_
  intro e he
  obtain ⟨k, _, rfl⟩ := List.mem_map.mp he
  rfl

theorem decodeEventsOf_argsTrace (env : CallEnv) (l : List Nat) :
    decodeEventsOf (decodeArgsTrace env l) = decodeArgsTrace env l := by
  refine List.filter_eq_self.mpr ?_
  intro e he
  obtain ⟨i, rfl⟩ := decodeArgsTrace_shape env l e he
  rfl

theorem decodeEventsOf_kwargsTrace (env : CallEnv) (ks : List String) :
    decodeEventsOf (decodeKwargsTrace env ks) = decodeKwargsTrace env ks := by
  refine List.filter_eq_self.mpr ?_
  intro e he
  obtain ⟨k, rfl⟩ := decodeKwargsTrace_shape env ks e he
  rfl

theorem decodeEventsOf_append (x y : List CallEvent) :
    decodeEventsOf (x ++ y) = decodeEventsOf x ++ decodeEventsOf y := by
  simp [decodeEventsOf]

theorem callBodyTrace_decode_take (env : CallEnv) (a : CallArguments) :
    ∃ k, decodeEventsOf (callBodyTrace env a) = (canonicalDecodeOrder a).take k := by
  unfold callBodyTrace
  cases hA : decodeArgsResult env (List.range a.args.length) with
  | error s =>
    simp only [hA]
    obtain ⟨k, hk, htr⟩ := decodeArgsTrace_take env (List.range a.args.length)
    refine ⟨k, ?_⟩
    unfold canonicalDecodeOrder
    rw [decodeEventsOf_argsTrace, htr,
      List.take_append_of_le_length (by simpa using hk)]
  | ok vsA =>
    cases hK : decodeKwargsResult env (a.kwargs.map Prod.fst) with
    | error s =>
      simp only [hA, hK]
      obtain ⟨k, hk, htr⟩ := decodeKwargsTrace_take env (a.kwargs.map Prod.fst)
      refine ⟨((List.range a.args.length).map CallEvent.decodeArg).length + k, ?_⟩
      unfold canonicalDecodeOrder
      rw [decodeEventsOf_append, decodeEventsOf_argsTrace, decodeEventsOf_kwargsTrace,
        decodeArgsTrace_of_ok env _ vsA hA, htr, List.take_append]
    | ok vsK =>
      cases hI : env.invoke vsA vsK with
      | some res =>
        simp only [hA, hK, hI]
        refine ⟨(canonicalDecodeOrder a).length, ?_⟩
        rw [List.take_length, decodeEventsOf_append, decodeEventsOf_append,
          decodeEventsOf_argsTrace, decodeEventsOf_kwargsTrace,
          decodeArgsTrace_of_ok env _ vsA hA, decodeKwargsTrace_of_ok env _ vsK hK,
          show decodeEventsOf [CallEvent.invoke, CallEvent.serializeResult] = [] from rfl,
          List.append_nil]
        rfl
      | none =>
        simp only [hA, hK, hI]
        refine ⟨(canonicalDecodeOrder a).length, ?_⟩
        rw [List.take_length, decodeEventsOf_append, decodeEventsOf_append,
          decodeEventsOf_argsTrace, decodeEventsOf_kwargsTrace,
          decodeArgsTrace_of_ok env _ vsA hA, decodeKwargsTrace_of_ok env _ vsK hK,
          show decodeEventsOf [CallEvent.invoke, CallEvent.fetchException] = [] from rfl,
          List.append_nil]
        rfl

theorem callBodyTrace_decode_full (env : CallEnv) (a : CallArguments)
    (hm : CallEvent.invoke ∈ callBodyTrace env a) :
    decodeEventsOf (callBodyTrace env a) = canonicalDecodeOrder a := by
  cases hA : decodeArgsResult env (List.range a.args.length) with
  | error s =>
    exfalso
    unfold callBodyTrace at hm
    simp only [hA] at hm
    obtain ⟨i, hi⟩ := decodeArgsTrace_shape env _ _ hm
    exact CallEvent.noConfusion hi
  | ok vsA =>
    cases hK : decodeKwargsResult env (a.kwargs.map Prod.fst) with
    | error s =>
      exfalso
      unfold callBodyTrace at hm
      simp only [hA, hK] at hm
      rcases List.mem_append.mp hm with h1 | h1
      · obtain ⟨i, hi⟩ := decodeArgsTrace_shape env _ _ h1
        exact CallEvent.noConfusion hi
      · obtain ⟨k, hk⟩ := decodeKwargsTrace_shape env _ _ h1
        exact CallEvent.noConfusion hk
    | ok vsK =>
      unfold callBodyTrace
      cases hI : env.invoke vsA vsK with
      | some res =>
        simp only [hA, hK, hI]
        rw [decodeEventsOf_append, decodeEventsOf_append,
          decodeEventsOf_argsTrace, decodeEventsOf_kwargsTrace,
          decodeArgsTrace_of_ok env _ vsA hA, decodeKwargsTrace_of_ok env _ vsK hK,
          show decodeEventsOf [CallEvent.invoke, CallEvent.serializeResult] = [] from rfl,
          List.append_nil]
        rfl
      | none =>
        simp only [hA, hK, hI]
        rw [decodeEventsOf_append, decodeEventsOf_append,
          decodeEventsOf_argsTrace, decodeEventsOf_kwargsTrace,
          decodeArgsTrace_of_ok env _ vsA hA, decodeKwargsTrace_of_ok env _ vsK hK,
          show decodeEventsOf [CallEvent.invoke, CallEvent.fetchException] = [] from rfl,
          List.append_nil]
        rfl

/-- C4: `Call` decodes arguments in a deterministic order — the sequence of
decode events of any run is an initial segment of the canonical order
(every positional argument in sequence order, then every keyword argument
in receipt order), and a run that reaches invocation has decoded exactly
the canonical sequence. Determinism across runs is inherent: the trace is
a function of the `CallArguments` and the primitive outcomes. -/
theorem pyCall_decode_order (env : CallEnv) (a : CallArguments) :
    (∃ k, decodeEventsOf (callTrace env a) = (canonicalDecodeOrder a).take k) ∧
    (CallEvent.invoke ∈ callTrace env a →
      decodeEventsOf (callTrace env a) = canonicalDecodeOrder a) := by
  cases h : env.tensorLookup with
  | error s =>
    constructor
    · exact ⟨0, by simp [callTrace, h, decodeEventsOf, isDecodeEvent]⟩
    · intro him
      simp [callTrace, h] at him
  | ok lk =>
    have hb : decodeEventsOf (callTrace env a) = decodeEventsOf (callBodyTrace env a) := by
      unfold callTrace decodeEventsOf
      simp only [h]
      simp [List.filter_append, isDecodeEvent]
    constructor
    · obtain ⟨k, hk⟩ := callBodyTrace_decode_take env a
      exact ⟨k, by rw [hb, hk]⟩
    · intro him
      have hmb : CallEvent.invoke ∈ callBodyTrace env a := by
        unfold callTrace at him
        simp only [h, List.mem_cons, List.mem_append,
          List.mem_singleton] at him
        rcases him with h1 | h1 | h1 | h1
        · exact CallEvent.noConfusion h1
        · exact CallEvent.noConfusion h1
        · exact h1
        · simp at h1
      rw [hb]
      exact callBodyTrace_decode_full env a hmb

theorem decodeArgsResult_ok_of (env : CallEnv) :
    ∀ l : List Nat, (∀ i ∈ l, ∃ v, env.deserializeArg i = Except.ok v) →
      ∃ vs, decodeArgsResult env l = Except.ok vs := by
  intro l
  induction l with
  | nil => intro _; exact ⟨[], rfl⟩
  | cons i rest ih =>
    intro h
    obtain ⟨v, hv⟩ := h i (List.mem_cons_self i rest)
    obtain ⟨vs, hvs⟩ := ih (fun j hj => h j (List.mem_cons_of_mem i hj))
    refine ⟨v :: vs, ?_⟩
    unfold decodeArgsResult
    simp only [hv, hvs]

theorem decodeKwargsResult_ok_of (env : CallEnv) :
    ∀ ks : List String, (∀ k ∈ ks, ∃ v, env.deserializeKwarg k = Except.ok v) →
      ∃ vs, decodeKwargsResult env ks = Except.ok vs := by
  intro ks
  induction ks with
  | nil => intro _; exact ⟨[], rfl⟩
  | cons k rest ih =>
    intro h
    obtain ⟨v, hv⟩ := h k (List.mem_cons_self k rest)
    obtain ⟨vs, hvs⟩ := ih (fun j hj => h j (List.mem_cons_of_mem k hj))
    refine ⟨(k, v) :: vs, ?_⟩
    unfold decodeKwargsResult
    simp only [hv, hvs]

theorem callBodyResult_invoke_failure (env : CallEnv) (a : CallArguments)
    (hA : ∀ i ∈ List.range a.args.length, ∃ v, env.deserializeArg i = Except.ok v)
    (hK : ∀ k ∈ a.kwargs.map Prod.fst, ∃ v, env.deserializeKwarg k = Except.ok v)
    (hinv : ∀ vsA vsK, env.invoke vsA vsK = none) :
    callBodyResult env a =
      (match env.fetchPendingException with
       | some exc =>
         Except.error { code := PythonExceptionErrorCode env.errState
                        message := raisedMessage exc }
       | none =>
         Except.error { code := StatusCode.internal
                        message := fallbackInternalMessage }) := by
  obtain ⟨vsA, hvA⟩ := decodeArgsResult_ok_of env _ hA
  obtain ⟨vsK, hvK⟩ := decodeKwargsResult_ok_of env _ hK
  unfold callBodyResult
  simp only [hvA, hvK, hinv]

/-- C5: when the callable fails, the runtime reports a pending failure, but
the failure text cannot be retrieved, `Call` returns `Status{Internal}`
with the fixed fallback message — the classified status code is not used
(the pending-failure state `env.errState` is arbitrary here), and the call
neither succeeds nor crashes. -/
theorem pyCall_fallback_internal (env : CallEnv) (a : CallArguments)
    (hlk : ∃ lk, env.tensorLookup = Except.ok lk)
    (hA : ∀ i ∈ List.range a.args.length, ∃ v, env.deserializeArg i = Except.ok v)
    (hK : ∀ k ∈ a.kwargs.map Prod.fst, ∃ v, env.deserializeKwarg k = Except.ok v)
    (hinv : ∀ vsA vsK, env.invoke vsA vsK = none)
    (hexc : env.fetchPendingException = none) :
    callOutcome env a =
      Except.error { code := StatusCode.internal
                     message := fallbackInternalMessage } := by
  obtain ⟨lk, hlk⟩ := hlk
  unfold callOutcome
  simp only [hlk]
  rw [callBodyResult_invoke_failure env a hA hK hinv]
  simp only [hexc]

/-- C5 witness: a concrete run with a pending lookup-category failure and no
retrievable text returns `Internal` with the fallback message (not the
classified `NotFound`). -/
theorem pyCall_fallback_internal_sample :
    callOutcome envFallback argsSample =
      Except.error { code := StatusCode.internal
                     message := fallbackInternalMessage } :=
  pyCall_fallback_internal envFallback argsSample
    ⟨{ table := [] }, rfl⟩
    (fun _ _ => ⟨{ id := 0 }, rfl⟩)
    (fun _ _ => ⟨{ id := 1 }, rfl⟩)
    (fun _ _ => rfl)
    rfl

/-- C6: every call yields exactly one of a `CallResult` or a `Status`; a
run whose invocation fails is never surfaced as a successful `CallResult`;
and when the failure text is retrievable the returned `Status` carries the
classified code and a message containing that text. -/
theorem pyCall_failure_surfaced (env : CallEnv) (a : CallArguments)
    (hinv : ∀ vsA vsK, env.invoke vsA vsK = none) :
    (∀ r, callOutcome env a ≠ Except.ok r) ∧
    (∀ (env2 : CallEnv) (a2 : CallArguments),
      ((∃ r, callOutcome env2 a2 = Except.ok r) ∧
        ¬∃ s, callOutcome env2 a2 = Except.error s) ∨
      ((∃ s, callOutcome env2 a2 = Except.error s) ∧
        ¬∃ r, callOutcome env2 a2 = Except.ok r)) ∧
    (∀ exc, env.fetchPendingException = some exc →
      (∃ lk, env.tensorLookup = Except.ok lk) →
      (∀ i ∈ List.range a.args.length, ∃ v, env.deserializeArg i = Except.ok v) →
      (∀ k ∈ a.kwargs.map Prod.fst, ∃ v, env.deserializeKwarg k = Except.ok v) →
      callOutcome env a = Except.error
        { code := PythonExceptionErrorCode env.errState
          message := raisedMessage exc } ∧
      ∃ p, raisedMessage exc = p ++ exc) := by
  refine ⟨?_, ?_, ?_⟩
  · intro r hr
    unfold callOutcome at hr
    cases hlk : env.tensorLookup with
    | error s => simp only [hlk] at hr; exact Except.noConfusion hr
    | ok lk =>
      simp only [hlk] at hr
      unfold callBodyResult at hr
      cases hA : decodeArgsResult env (List.range a.args.length) with
      | error s => simp only [hA] at hr; exact Except.noConfusion hr
      | ok vsA =>
        simp only [hA] at hr
        cases hK : decodeKwargsResult env (a.kwargs.map Prod.fst) with
        | error s => simp only [hK] at hr; exact Except.noConfusion hr
        | ok vsK =>
          simp only [hK, hinv] at hr
          cases hexc : env.fetchPendingException with
          | some exc => simp only [hexc] at hr; exact Except.noConfusion hr
          | none => simp only [hexc] at hr; exact Except.noConfusion hr
  · intro env2 a2
    cases hout : callOutcome env2 a2 with
    | ok r =>
      refine Or.inl ⟨⟨r, rfl⟩, ?_⟩
      rintro ⟨s, hs⟩
      exact Except.noConfusion hs
    | error s =>
      refine Or.inr ⟨⟨s, rfl⟩, ?_⟩
      rintro ⟨r, hr2⟩
      exact Except.noConfusion hr2
  · intro exc hexc hlk hA hK
    obtain ⟨lk, hlk⟩ := hlk
    refine ⟨?_, serverExceptionNote ++ ":\n", rfl⟩
    unfold callOutcome
    simp only [hlk]
    rw [callBodyResult_invoke_failure env a hA hK hinv]
    simp only [hexc]

/-- C6 witness: the spec's end-to-end scenario — a callable raising a
lookup-category failure with message "key missing" yields
`Status{NotFound}` with the text in the message. -/
theorem pyCall_failure_surfaced_sample :
    callOutcome envRaised argsSample = Except.error
      { code := StatusCode.notFound, message := raisedMessage "key missing" } :=
  ((pyCall_failure_surfaced envRaised argsSample (fun _ _ => rfl)).2.2
    "key missing" rfl
    ⟨{ table := [] }, rfl⟩
    (fun _ _ => ⟨{ id := 0 }, rfl⟩)
    (fun _ _ => ⟨{ id := 1 }, rfl⟩)).1

/-- C3 counterexample: the constructor performs the reference acquisition
(`Py_INCREF`) without acquiring exclusive runtime access itself, so a
construction by a thread that does not hold the GIL runs the acquisition
outside the exclusive section — the claim that both operations are
performed while holding exclusive runtime access fails there. -/
theorem pyCallHandler_ctor_incref_unlocked :
    allUnderGil LifeEvent.incref false pyCallHandlerConstructor = false := by
  decide

/-- C3 (amended): the callable reference is acquired at construction
(`Py_INCREF`) and released at destruction (`Py_DECREF`); the destructor
itself acquires exclusive runtime access, so the release always runs while
holding it (from either initial lock state); the constructor contains no
acquisition of exclusive access, so the reference acquisition runs under
exclusive access only when the constructing thread already holds it. -/
theorem pyCallHandler_refcount_lifecycle :
    LifeEvent.incref ∈ pyCallHandlerConstructor ∧
    LifeEvent.decref ∈ pyCallHandlerDestructor ∧
    allUnderGil LifeEvent.decref false pyCallHandlerDestructor = true ∧
    allUnderGil LifeEvent.decref true pyCallHandlerDestructor = true ∧
    allUnderGil LifeEvent.incref true pyCallHandlerConstructor = true ∧
    LifeEvent.gilAcquire ∉ pyCallHandlerConstructor ∧
    LifeEvent.gilRelease ∉ pyCallHandlerConstructor := by
  decide

theorem lookupName_append_self {H : Type} (l : List (String × H)) (n : String)
    (v : H) (h : lookupName l n = none) :
    lookupName (l ++ [(n, v)]) n = some v := by
  induction l with
  | nil => simp [lookupName]
  | cons p rest ih =>
    obtain ⟨k, w⟩ := p
    simp only [lookupName, List.cons_append] at h ⊢
    by_cases hk : k = n
    · rw [if_pos hk] at h
      exact Option.noConfusion h
    · rw [if_neg hk] at h ⊢
      exact ih h

/-- C7: binding an already-registered name fails with `AlreadyExists` and
leaves the registry — in particular the originally bound handler — exactly
as it was; a successful bind returns `Ok` and the registry now owns the
handler under that name. -/
theorem router_bind_contract {H : Type} (r : Router H) (n : String) (h2 : H) :
    (∀ h0, lookupName r.registry n = some h0 →
      (Router.bind r n h2).1.code = StatusCode.alreadyExists ∧
      (Router.bind r n h2).2 = r ∧
      lookupName (Router.bind r n h2).2.registry n = some h0) ∧
    (lookupName r.registry n = none →
      (Router.bind r n h2).1.code = StatusCode.ok ∧
      lookupName (Router.bind r n h2).2.registry n = some h2) := by
  constructor
  · intro h0 hl
    have hs : (lookupName r.registry n).isSome = true := by rw [hl]; rfl
    unfold Router.bind
    rw [if_pos hs]
    exact ⟨rfl, rfl, hl⟩
  · intro hl
    have hs : (lookupName r.registry n).isSome = false := by rw [hl]; rfl
    unfold Router.bind
    rw [if_neg (by simp [hs])]
    exact ⟨rfl, lookupName_append_self r.registry n h2 hl⟩

/-- C7 witness: on a concrete registry already holding "a", rebinding "a"
returns `AlreadyExists` with the registry unchanged, and binding a fresh
name returns `Ok` with the handler bound. -/
theorem router_bind_contract_sample :
    ((Router.bind { registry := [("a", 0)] } "a" 1).1.code =
        StatusCode.alreadyExists ∧
      (Router.bind ({ registry := [("a", 0)] } : Router Nat) "a" 1).2 =
        { registry := [("a", 0)] } ∧
      lookupName (Router.bind ({ registry := [("a", 0)] } : Router Nat)
        "a" 1).2.registry "a" = some 0) ∧
    ((Router.bind ({ registry := [("a", 0)] } : Router Nat) "b" 1).1.code =
        StatusCode.ok ∧
      lookupName (Router.bind ({ registry := [("a", 0)] } : Router Nat)
        "b" 1).2.registry "b" = some 1) :=
  ⟨(router_bind_contract { registry := [("a", 0)] } "a" 1).1 0 rfl,
   (router_bind_contract { registry := [("a", 0)] } "b" 1).2 rfl⟩

/-- C8: dispatching an unregistered name returns `NotFound` without
invoking any handler and without touching the registry; dispatching a
registered name forwards to the bound handler's `Call` and returns its
outcome unchanged. -/
theorem router_dispatch_contract {H : Type} (r : Router H)
    (call : H → CallArguments → Except Status CallResult)
    (n : String) (a : CallArguments) :
    (lookupName r.registry n = none →
      Router.dispatch r call n a =
        (Except.error { code := StatusCode.notFound, message := "" }, r, [])) ∧
    (∀ h, lookupName r.registry n = some h →
      Router.dispatch r call n a = (call h a, r, [n])) := by
  constructor
  · intro hl
    unfold Router.dispatch
    simp only [hl]
  · intro h hl
    unfold Router.dispatch
    simp only [hl]

/-- C8 witness: on a concrete registry, dispatching an unbound name yields
`NotFound`, no handler invocation and an unchanged registry; dispatching a
bound name yields the handler's outcome unchanged. -/
theorem router_dispatch_contract_sample :
    (Router.dispatch ({ registry := [("a", 7)] } : Router Nat)
        (fun h _ => Except.ok { result := Payload.object [h] }) "z" argsSample =
      (Except.error { code := StatusCode.notFound, message := "" },
        { registry := [("a", 7)] }, [])) ∧
    (Router.dispatch ({ registry := [("a", 7)] } : Router Nat)
        (fun h _ => Except.ok { result := Payload.object [h] }) "a" argsSample =
      (Except.ok { result := Payload.object [7] },
        { registry := [("a", 7)] }, ["a"])) :=
  ⟨(router_dispatch_contract { registry := [("a", 7)] }
      (fun h _ => Except.ok { result := Payload.object [h] }) "z" argsSample).1 rfl,
   (router_dispatch_contract { registry := [("a", 7)] }
      (fun h _ => Except.ok { result := Payload.object [h] }) "a" argsSample).2 7 rfl⟩

/-- C9 counterexample: `Dispatch` is not among the methods registered by the
module registration, so the claim that all three of Bind, Unbind and
Dispatch are reachable through that foreign-function surface is false. -/
theorem routerModule_dispatch_missing :
    routerModuleExposes "Dispatch" = false := by
  decide

/-- C9 (amended): the module registration exposes `Bind` and `Unbind`
through the foreign-function surface, but not `Dispatch`. -/
theorem routerModule_exposed_methods :
    routerModuleExposes "Bind" = true ∧
    routerModuleExposes "Unbind" = true ∧
    routerModuleExposes "Dispatch" = false := by
  decide

/-- C10: in the host-language binding, `Unbind` carries the
`gil_scoped_release` call guard, so its body always runs with the GIL
released; `Bind` carries no such guard, so it runs in the caller's GIL
state (held, when entered from the hosted runtime). The unbound handler's
destructor re-acquires the GIL as its first action, which cannot deadlock
against an `Unbind` caller that has released it. -/
theorem routerModule_unbind_releases_gil :
    gilHeldDuringMethodBody "Unbind" = some false ∧
    gilHeldDuringMethodBody "Bind" = some true ∧
    pyCallHandlerDestructor.head? = some LifeEvent.gilAcquire := by
  decide

end Courier
